import Mathlib

/-!
Verification development for the SeqLike dual-representation sequence core.

The repository under verification ships its documentation (README, tutorial
notebook) but the Python implementation modules themselves are not present in
the source tree given to us; every definition below is therefore modelled from
the specification document (sections 3, 4, 6, 7), which was written from that
implementation.  Symbols are `Char`s; Views are lists of symbols; the
Dual-Representation Record holds an optional NT View, an optional AA View, an
active-domain flag and an optional Codon Map, exactly as section 3 describes.
-/

namespace SeqLike

/-- Modelled from the spec: the domain tag of a Sequence View (§3), `NT` or `AA`. -/
inductive Domain where
  | NT : Domain
  | AA : Domain
deriving DecidableEq, Repr

/-- Modelled from the spec: the error taxonomy of §7 (the missing implementation
raises Python exceptions; the spec names them `AlphabetError`, `FrameError`,
`MissingCodonMapError`, `RangeError`, `LengthMismatchError`, `EncodingError`). -/
inductive Err where
  | AlphabetError : Err
  | FrameError : Err
  | MissingCodonMapError : Err
  | RangeError : Err
  | LengthMismatchError : Err
  | EncodingError : Err
deriving DecidableEq, Repr

/-- Modelled from the spec: the fixed genetic-code table (§4.3, translate).
Maps one DNA triplet to one AA symbol; stop codons map to the designated stop
symbol `*`, the all-gap triplet to the gap `-`, and any triplet not in the
table (ambiguity codes, partial gaps) to the designated unknown symbol `X` —
"ambiguous/stop triplets map to a designated unknown/stop symbol per table,
not an error". -/
def codon1 : Char → Char → Char → Char
  | 'T', 'T', 'T' => 'F' | 'T', 'T', 'C' => 'F' | 'T', 'T', 'A' => 'L' | 'T', 'T', 'G' => 'L'
  | 'C', 'T', 'T' => 'L' | 'C', 'T', 'C' => 'L' | 'C', 'T', 'A' => 'L' | 'C', 'T', 'G' => 'L'
  | 'A', 'T', 'T' => 'I' | 'A', 'T', 'C' => 'I' | 'A', 'T', 'A' => 'I' | 'A', 'T', 'G' => 'M'
  | 'G', 'T', 'T' => 'V' | 'G', 'T', 'C' => 'V' | 'G', 'T', 'A' => 'V' | 'G', 'T', 'G' => 'V'
  | 'T', 'C', 'T' => 'S' | 'T', 'C', 'C' => 'S' | 'T', 'C', 'A' => 'S' | 'T', 'C', 'G' => 'S'
  | 'C', 'C', 'T' => 'P' | 'C', 'C', 'C' => 'P' | 'C', 'C', 'A' => 'P' | 'C', 'C', 'G' => 'P'
  | 'A', 'C', 'T' => 'T' | 'A', 'C', 'C' => 'T' | 'A', 'C', 'A' => 'T' | 'A', 'C', 'G' => 'T'
  | 'G', 'C', 'T' => 'A' | 'G', 'C', 'C' => 'A' | 'G', 'C', 'A' => 'A' | 'G', 'C', 'G' => 'A'
  | 'T', 'A', 'T' => 'Y' | 'T', 'A', 'C' => 'Y' | 'T', 'A', 'A' => '*' | 'T', 'A', 'G' => '*'
  | 'C', 'A', 'T' => 'H' | 'C', 'A', 'C' => 'H' | 'C', 'A', 'A' => 'Q' | 'C', 'A', 'G' => 'Q'
  | 'A', 'A', 'T' => 'N' | 'A', 'A', 'C' => 'N' | 'A', 'A', 'A' => 'K' | 'A', 'A', 'G' => 'K'
  | 'G', 'A', 'T' => 'D' | 'G', 'A', 'C' => 'D' | 'G', 'A', 'A' => 'E' | 'G', 'A', 'G' => 'E'
  | 'T', 'G', 'T' => 'C' | 'T', 'G', 'C' => 'C' | 'T', 'G', 'A' => '*' | 'T', 'G', 'G' => 'W'
  | 'C', 'G', 'T' => 'R' | 'C', 'G', 'C' => 'R' | 'C', 'G', 'A' => 'R' | 'C', 'G', 'G' => 'R'
  | 'A', 'G', 'T' => 'S' | 'A', 'G', 'C' => 'S' | 'A', 'G', 'A' => 'R' | 'A', 'G', 'G' => 'R'
  | 'G', 'G', 'T' => 'G' | 'G', 'G', 'C' => 'G' | 'G', 'G', 'A' => 'G' | 'G', 'G', 'G' => 'G'
  | '-', '-', '-' => '-'
  | _, _, _ => 'X'

/-- Modelled from the spec: partition an NT symbol sequence into consecutive
triplets and map each through the genetic-code table (§4.3, translate body).
A trailing fragment of fewer than three symbols produces nothing; the frame
check in `translate` rules that case out before this function is reached. -/
def translateSyms : List Char → List Char
  | a :: b :: c :: rest => codon1 a b c :: translateSyms rest
  | _ => []

/-- Modelled from the spec: `translate(View[NT]) -> View[AA]` (§4.3).
Requires `length % 3 == 0`, else fails with `FrameError`; otherwise total and
deterministic. -/
def translate (v : List Char) : Except Err (List Char) :=
  if v.length % 3 = 0 then .ok (translateSyms v) else .error .FrameError

/-- Modelled from the spec: a Codon Map (§3, §6) — an externally supplied table
from an AA symbol to one NT triplet. -/
def CodonMap : Type := Char → List Char

/-- Modelled from the spec: back-translation of a single AA symbol (§4.3):
the gap symbol maps to three NT gap symbols, the unknown symbol `X` maps to
three NT unknown symbols `N`, and every other symbol maps through the
Codon Map. -/
def backTranslateSym (m : CodonMap) (c : Char) : List Char :=
  if c = '-' then ['-', '-', '-']
  else if c = 'X' then ['N', 'N', 'N']
  else m c

/-- Modelled from the spec: back-translation body — each AA symbol maps to its
triplet, concatenated in order (§4.3, back_translate). -/
def backTranslateSyms (m : CodonMap) : List Char → List Char
  | [] => []
  | c :: rest => backTranslateSym m c ++ backTranslateSyms m rest

/-- Modelled from the spec: `back_translate(View[AA], CodonMap) -> View[NT]`
(§4.3).  Requires a Codon Map, else fails with `MissingCodonMapError`. -/
def back_translate (v : List Char) (m? : Option CodonMap) : Except Err (List Char) :=
  match m? with
  | none => .error .MissingCodonMapError
  | some m => .ok (backTranslateSyms m v)

/-- Modelled from the spec: the Dual-Representation Record (§3): an optional
NT View, an optional AA View, the active-domain flag, and an optional
(non-owning) Codon Map reference. -/
structure Record where
  nt : Option (List Char)
  aa : Option (List Char)
  active : Domain
  codon_map : Option CodonMap

/-- Modelled from the spec: the View of a given domain held by a Record. -/
def viewOf (r : Record) (d : Domain) : Option (List Char) :=
  match d with
  | .NT => r.nt
  | .AA => r.aa

/-- Modelled from the spec: the active View of a Record — the representation
operations act on by default (glossary, §3). -/
def activeView (r : Record) : Option (List Char) :=
  viewOf r r.active

/-- Modelled from the spec: `activate(Record, target_domain) -> Record` (§4.3).
If a View of the target domain already exists, only the active flag is
swapped (no recomputation); otherwise translate / back_translate derives it
(the latter requiring the Record's Codon Map).  A Record violating the §3
invariant (no source View at all) is rejected with `RangeError`. -/
def activate (r : Record) (target : Domain) : Except Err Record :=
  match target with
  | .NT =>
    match r.nt with
    | some _ => .ok { r with active := .NT }
    | none =>
      match r.aa with
      | none => .error .RangeError
      | some v =>
        match back_translate v r.codon_map with
        | .error e => .error e
        | .ok w => .ok { r with nt := some w, active := .NT }
  | .AA =>
    match r.aa with
    | some _ => .ok { r with active := .AA }
    | none =>
      match r.nt with
      | none => .error .RangeError
      | some v =>
        match translate v with
        | .error e => .error e
        | .ok w => .ok { r with aa := some w, active := .AA }

/-- Modelled from the spec: the half-open slice `l[i:j)` of a symbol list. -/
def sliceList (l : List Char) (i j : Nat) : List Char :=
  (l.drop i).take (j - i)

/-- Modelled from the spec: `slice(Record, range) -> Record` (§4.3).  Slices
the active View; an out-of-bounds range fails with `RangeError`.  Propagation
to the non-active View: for an AA-active Record, AA position `i` corresponds
to the NT triplet `[3i, 3i+3)`, so the NT View is sliced `[3i:3j)` exactly;
for an NT-active Record the AA View is sliced `[i/3 : i/3 + (j-i)/3)` when the
range is frame-aligned (`i % 3 == 0` and `(j-i) % 3 == 0`) and is otherwise
dropped from the result. -/
def slice (r : Record) (i j : Nat) : Except Err Record :=
  match r.active, r.nt, r.aa with
  | .AA, nt?, some aav =>
    if i ≤ j ∧ j ≤ aav.length then
      .ok { r with aa := some (sliceList aav i j),
                   nt := nt?.map (fun ntv => sliceList ntv (3 * i) (3 * j)) }
    else .error .RangeError
  | .NT, some ntv, aa? =>
    if i ≤ j ∧ j ≤ ntv.length then
      .ok { r with nt := some (sliceList ntv i j),
                   aa := if i % 3 = 0 ∧ (j - i) % 3 = 0 then
                           aa?.map (fun aav => sliceList aav (i / 3) (i / 3 + (j - i) / 3))
                         else none }
    else .error .RangeError
  | _, _, _ => .error .RangeError

/-- Modelled from the spec: `pad_to(Record, target_length) -> Record` (§4.3).
Appends the alphabet's gap symbol `-` to the active View up to the target
length; fails with `LengthMismatchError` if the target is shorter than the
current length.  An AA-active pad of `d` symbols pads the NT View by `3*d`
gaps; an NT-active pad whose amount is not a multiple of 3 drops the AA View
(the same stale-drop policy as slicing), otherwise the AA View is padded by
`d/3` gaps. -/
def pad_to (r : Record) (target : Nat) : Except Err Record :=
  match r.active, r.nt, r.aa with
  | .AA, nt?, some aav =>
    if target < aav.length then .error .LengthMismatchError
    else
      let d := target - aav.length
      .ok { r with aa := some (aav ++ List.replicate d '-'),
                   nt := nt?.map (fun ntv => ntv ++ List.replicate (3 * d) '-') }
  | .NT, some ntv, aa? =>
    if target < ntv.length then .error .LengthMismatchError
    else
      let d := target - ntv.length
      .ok { r with nt := some (ntv ++ List.replicate d '-'),
                   aa := if d % 3 = 0 then
                           aa?.map (fun aav => aav ++ List.replicate (d / 3) '-')
                         else none }
  | _, _, _ => .error .RangeError

/-- Modelled from the spec: an Alphabet (§3, §4.1) — the ordered symbol set of
a domain together with its gap symbol and its unknown symbol; it supplies the
symbol↔index mapping used by the numeric codecs. -/
structure Alphabet where
  symbols : List Char
  gap : Char
  unknown : Char

/-- Modelled from the spec: position of the first occurrence of a symbol in an
ordered symbol list (§4.1, `index_of`); returns the list's length when the
symbol is absent. -/
def idxOfSym : List Char → Char → Nat
  | [], _ => 0
  | a :: rest, c => if a = c then 0 else idxOfSym rest c + 1

/-- Modelled from the spec: `index_of(symbol) -> position` (§4.1). -/
def index_of (A : Alphabet) (c : Char) : Nat :=
  idxOfSym A.symbols c

/-- Modelled from the spec: `symbol_at(position) -> symbol` (§4.1); fails with
`AlphabetError` when the position is outside the alphabet. -/
def symbol_at (A : Alphabet) (i : Nat) : Except Err Char :=
  match A.symbols[i]? with
  | some c => .ok c
  | none => .error .AlphabetError

/-- Modelled from the spec: `encode_index(View) -> integer sequence` —
`index_of(symbol_i)` per position (§4.4). -/
def encode_index (A : Alphabet) (v : List Char) : List Nat :=
  v.map (index_of A)

/-- Modelled from the spec: one row of a one-hot encoding (§4.4) — the
length-`size` indicator vector holding 1 at position `idx` and 0 elsewhere. -/
def onehotRow : Nat → Nat → List Nat
  | _, 0 => []
  | 0, n + 1 => 1 :: List.replicate n 0
  | i + 1, n + 1 => 0 :: onehotRow i n

/-- Modelled from the spec: `encode_onehot(View)` (§4.4) — per position, the
indicator row over the alphabet with 1 at `index_of(symbol_i)`, 0 elsewhere. -/
def encode_onehot (A : Alphabet) (v : List Char) : List (List Nat) :=
  v.map (fun c => onehotRow (index_of A c) A.symbols.length)

/-- Modelled from the spec: the number of entries equal to 1 in a one-hot row
(used by decode to detect a missing or tied 1, §4.4). -/
def onesCount : List Nat → Nat
  | [] => 0
  | x :: rest => (if x = 1 then 1 else 0) + onesCount rest

/-- Modelled from the spec: position of the first 1 in a one-hot row. -/
def onesIdx : List Nat → Nat
  | [] => 0
  | x :: rest => if x = 1 then 0 else onesIdx rest + 1

/-- Modelled from the spec: decode one one-hot row (§4.4): a row with no single
1 (or a tie) fails with `EncodingError`; otherwise the symbol at the unique
1's position. -/
def decodeRow (A : Alphabet) (row : List Nat) : Except Err Char :=
  if onesCount row = 1 then symbol_at A (onesIdx row) else .error .EncodingError

/-- Modelled from the spec: `decode` of an index encoding (§4.4), the inverse
of `encode_index`. -/
def decode_index (A : Alphabet) : List Nat → Except Err (List Char)
  | [] => .ok []
  | i :: rest =>
    match symbol_at A i, decode_index A rest with
    | .ok c, .ok cs => .ok (c :: cs)
    | .error e, _ => .error e
    | .ok _, .error e => .error e

/-- Modelled from the spec: `decode` of a one-hot encoding (§4.4), the inverse
of `encode_onehot`. -/
def decode_onehot (A : Alphabet) : List (List Nat) → Except Err (List Char)
  | [] => .ok []
  | row :: rest =>
    match decodeRow A row, decode_onehot A rest with
    | .ok c, .ok cs => .ok (c :: cs)
    | .error e, _ => .error e
    | .ok _, .error e => .error e

/-! ### Lemmas about translation -/

theorem translateSyms_length : ∀ l : List Char, (translateSyms l).length = l.length / 3
  | [] => rfl
  | [_] => by simp [translateSyms]
  | [_, _] => by simp [translateSyms]
  | a :: b :: c :: rest => by
    have ih := translateSyms_length rest
    simp only [translateSyms, List.length_cons]
    omega

theorem cons3_getD (x y z : Char) (l : List Char) (n : Nat) :
    (x :: y :: z :: l).getD (n + 3) 'X' = l.getD n 'X' := rfl

theorem translateSyms_getD :
    ∀ (l : List Char) (i : Nat), i < (translateSyms l).length →
      (translateSyms l).getD i 'X' =
        codon1 (l.getD (3 * i) 'X') (l.getD (3 * i + 1) 'X') (l.getD (3 * i + 2) 'X')
  | a :: b :: c :: rest, 0, _ => rfl
  | a :: b :: c :: rest, i + 1, h => by
    have h' : i < (translateSyms rest).length := by
      have : (translateSyms (a :: b :: c :: rest)).length = (translateSyms rest).length + 1 := rfl
      omega
    have ih := translateSyms_getD rest i h'
    have e0 : 3 * (i + 1) = 3 * i + 3 := by ring
    have e1 : 3 * (i + 1) + 1 = 3 * i + 1 + 3 := by ring
    have e2 : 3 * (i + 1) + 2 = 3 * i + 2 + 3 := by ring
    have lhs : (translateSyms (a :: b :: c :: rest)).getD (i + 1) 'X' =
        (translateSyms rest).getD i 'X' := rfl
    rw [lhs, e1, e2, e0, cons3_getD, cons3_getD, cons3_getD]
    exact ih

/-- C1: for every NT-domain Record whose length is not divisible by 3,
`translate` (and `activate` toward the AA domain) fails with `FrameError`,
and whenever the length is divisible by 3 both succeed, deterministically
producing one AA symbol (via the genetic-code table) per consecutive
triplet. -/
theorem translate_frame_check (v : List Char) (r : Record)
    (_hact : r.active = .NT) (hnt : r.nt = some v) (haa : r.aa = none) :
    (v.length % 3 ≠ 0 →
      translate v = .error .FrameError ∧ activate r .AA = .error .FrameError) ∧
    (v.length % 3 = 0 →
      ∃ w, translate v = .ok w ∧
        activate r .AA = .ok { r with aa := some w, active := .AA } ∧
        w.length = v.length / 3 ∧
        ∀ i, i < w.length →
          w.getD i 'X' =
            codon1 (v.getD (3 * i) 'X') (v.getD (3 * i + 1) 'X') (v.getD (3 * i + 2) 'X')) := by
  constructor
  · intro hne
    have ht : translate v = .error .FrameError := by
      simp [translate, hne]
    refine ⟨ht, ?_⟩
    simp [activate, haa, hnt, ht]
  · intro he
    refine ⟨translateSyms v, ?_, ?_, ?_, ?_⟩
    · simp [translate, he]
    · simp [activate, haa, hnt, translate, he]
    · exact translateSyms_length v
    · exact translateSyms_getD v

/-- Witness for C1 at the spec's concrete scenarios: the length-14 NT View
fails the frame check in both `translate` and `activate`, and the length-15
View `"ATGTCTAAAGGTGAA"` translates to `"MSKGE"`. -/
theorem translate_frame_check_witness :
    (("ATGTCTAAAGGTGA").toList.length % 3 ≠ 0 ∧
      translate ("ATGTCTAAAGGTGA").toList = .error .FrameError ∧
      activate ⟨some ("ATGTCTAAAGGTGA").toList, none, .NT, none⟩ .AA = .error .FrameError) ∧
    translate ("ATGTCTAAAGGTGAA").toList = .ok ("MSKGE").toList := by
  constructor
  · exact ⟨by decide,
      (translate_frame_check ("ATGTCTAAAGGTGA").toList
        ⟨some ("ATGTCTAAAGGTGA").toList, none, .NT, none⟩ rfl rfl rfl).1 (by decide)⟩
  · rfl

/-! ### Lemmas about back-translation -/

theorem backTranslateSym_length (m : CodonMap) (htotal : ∀ c, (m c).length = 3)
    (c : Char) : (backTranslateSym m c).length = 3 := by
  unfold backTranslateSym
  split
  · rfl
  · split
    · rfl
    · exact htotal c

theorem backTranslateSyms_length (m : CodonMap) (htotal : ∀ c, (m c).length = 3) :
    ∀ v : List Char, (backTranslateSyms m v).length = 3 * v.length
  | [] => rfl
  | c :: rest => by
    have ih := backTranslateSyms_length m htotal rest
    have hc := backTranslateSym_length m htotal c
    simp only [backTranslateSyms, List.length_append, List.length_cons, ih, hc]
    ring

theorem translateSyms_append3 (xs ys : List Char) (h : xs.length = 3) :
    translateSyms (xs ++ ys) = translateSyms xs ++ translateSyms ys := by
  obtain ⟨a, b, c, rfl⟩ := List.length_eq_three.mp h
  rfl

theorem backTranslate_roundtrip (m : CodonMap) (htotal : ∀ c, (m c).length = 3) :
    ∀ v : List Char, (∀ c ∈ v, translateSyms (backTranslateSym m c) = [c]) →
      translateSyms (backTranslateSyms m v) = v
  | [], _ => rfl
  | c :: rest, h => by
    have hlen : (backTranslateSym m c).length = 3 := backTranslateSym_length m htotal c
    rw [backTranslateSyms, translateSyms_append3 _ _ hlen, h c (List.mem_cons_self c rest),
        backTranslate_roundtrip m htotal rest (fun x hx => h x (List.mem_cons_of_mem c hx))]
    rfl

/-- C2: for every AA-domain Record with no Codon Map bound, `back_translate`
(and `activate` toward the NT domain) fails with `MissingCodonMapError`; once
a Codon Map is bound the same call succeeds. -/
theorem back_translate_requires_codon_map (v : List Char) (r : Record)
    (_hact : r.active = .AA) (haa : r.aa = some v) (hnt : r.nt = none) :
    (r.codon_map = none →
      back_translate v r.codon_map = .error .MissingCodonMapError ∧
      activate r .NT = .error .MissingCodonMapError) ∧
    (∀ m, r.codon_map = some m →
      activate r .NT = .ok { r with nt := some (backTranslateSyms m v), active := .NT }) := by
  constructor
  · intro hnone
    constructor
    · simp [back_translate, hnone]
    · simp [activate, hnt, haa, back_translate, hnone]
  · intro m hm
    simp [activate, hnt, haa, back_translate, hm]

/-- A concrete Codon Map used by witnesses: the residues of `"MSKGE"` map to
codons that re-translate to themselves; every other symbol maps to `AAA`. -/
def exCodonMap : CodonMap := fun c =>
  match c with
  | 'M' => ("ATG").toList
  | 'S' => ("TCT").toList
  | 'K' => ("AAA").toList
  | 'G' => ("GGT").toList
  | 'E' => ("GAA").toList
  | _ => ("AAA").toList

/-- Witness for C2 at the spec's concrete scenario: AA View `"MSKGE"` with no
Codon Map fails `activate(NT)` with `MissingCodonMapError`; binding a Codon
Map makes the same call succeed, producing the length-15 NT View. -/
theorem back_translate_requires_codon_map_witness :
    activate ⟨none, some ("MSKGE").toList, .AA, none⟩ .NT = .error .MissingCodonMapError ∧
    activate ⟨none, some ("MSKGE").toList, .AA, some exCodonMap⟩ .NT =
      .ok ⟨some ("ATGTCTAAAGGTGAA").toList, some ("MSKGE").toList, .NT, some exCodonMap⟩ := by
  constructor
  · exact ((back_translate_requires_codon_map ("MSKGE").toList
      ⟨none, some ("MSKGE").toList, .AA, none⟩ rfl rfl rfl).1 rfl).2
  · exact (back_translate_requires_codon_map ("MSKGE").toList
      ⟨none, some ("MSKGE").toList, .AA, some exCodonMap⟩ rfl rfl rfl).2 exCodonMap rfl

/-- C3: for every AA View and every total Codon Map, back-translation has
length exactly three times the input length, the gap maps to three gaps and
the unknown to three unknowns, and whenever every entry used round-trips
through the fixed genetic-code table, `translate (back_translate v m) = v`. -/
theorem back_translate_length_roundtrip (v : List Char) (m : CodonMap)
    (htotal : ∀ c, (m c).length = 3) :
    (backTranslateSyms m v).length = 3 * v.length ∧
    backTranslateSym m '-' = ['-', '-', '-'] ∧
    backTranslateSym m 'X' = ['N', 'N', 'N'] ∧
    ((∀ c ∈ v, translateSyms (backTranslateSym m c) = [c]) →
      translate (backTranslateSyms m v) = .ok v) := by
  refine ⟨backTranslateSyms_length m htotal v, rfl, rfl, ?_⟩
  intro hrt
  have hlen : (backTranslateSyms m v).length % 3 = 0 := by
    rw [backTranslateSyms_length m htotal v]
    omega
  simp [translate, hlen, backTranslate_roundtrip m htotal v hrt]

/-- Witness for C3 at `"MSKGE"` with the concrete Codon Map: totality and the
round-trip hypothesis hold, the output has length 15 = 3 × 5, and
translating the back-translation returns `"MSKGE"`. -/
theorem back_translate_length_roundtrip_witness :
    (backTranslateSyms exCodonMap ("MSKGE").toList).length = 3 * ("MSKGE").toList.length ∧
    translate (backTranslateSyms exCodonMap ("MSKGE").toList) = .ok ("MSKGE").toList := by
  have htotal : ∀ c, (exCodonMap c).length = 3 := by
    intro c
    unfold exCodonMap
    split <;> rfl
  have h := back_translate_length_roundtrip ("MSKGE").toList exCodonMap htotal
  exact ⟨h.1, h.2.2.2 (by decide)⟩

/-- C4: for every AA-active Record holding an NT secondary View and all
`0 ≤ i ≤ j ≤ len(aa_view)`, slicing `[i:j)` succeeds and the NT View of the
result is exactly `nt_view(r)[3i:3j)` (the active AA View being sliced
`[i:j)`). -/
theorem slice_aa_propagates_nt (r : Record) (aav ntv : List Char) (i j : Nat)
    (hact : r.active = .AA) (haa : r.aa = some aav) (hnt : r.nt = some ntv)
    (hij : i ≤ j) (hj : j ≤ aav.length) :
    ∃ r', slice r i j = .ok r' ∧
      r'.nt = some (sliceList ntv (3 * i) (3 * j)) ∧
      r'.aa = some (sliceList aav i j) := by
  rcases r with ⟨nt, aa, active, cm⟩
  simp only at hact haa hnt
  subst hact haa hnt
  refine ⟨⟨some (sliceList ntv (3 * i) (3 * j)), some (sliceList aav i j), .AA, cm⟩, ?_, rfl, rfl⟩
  simp [slice, hij, hj]

/-- Witness for C4 at the spec's concrete scenario: the Record holding NT
`"ATGTCTAAAGGTGAA"` and active AA `"MSKGE"`, sliced `[0:3)`, yields AA
`"MSK"` whose NT back-reference is `"ATGTCTAAA"`. -/
theorem slice_aa_propagates_nt_witness :
    ∃ r', slice ⟨some ("ATGTCTAAAGGTGAA").toList, some ("MSKGE").toList, .AA, none⟩ 0 3 = .ok r' ∧
      r'.nt = some (sliceList ("ATGTCTAAAGGTGAA").toList (3 * 0) (3 * 3)) ∧
      r'.aa = some (sliceList ("MSKGE").toList 0 3) :=
  slice_aa_propagates_nt ⟨some ("ATGTCTAAAGGTGAA").toList, some ("MSKGE").toList, .AA, none⟩
    ("MSKGE").toList ("ATGTCTAAAGGTGAA").toList 0 3 rfl rfl rfl (by decide) (by decide)

/-- C5: for every NT-active Record holding an AA secondary View, an in-bounds
slice whose start or length is not a multiple of 3 succeeds — no error — and
the AA secondary View is dropped from the result, only the sliced NT View
surviving. -/
theorem slice_nt_unaligned_drops_aa (r : Record) (ntv aav : List Char) (i j : Nat)
    (hact : r.active = .NT) (hnt : r.nt = some ntv) (haa : r.aa = some aav)
    (hij : i ≤ j) (hj : j ≤ ntv.length)
    (hframe : i % 3 ≠ 0 ∨ (j - i) % 3 ≠ 0) :
    ∃ r', slice r i j = .ok r' ∧ r'.aa = none ∧ r'.nt = some (sliceList ntv i j) := by
  rcases r with ⟨nt, aa, active, cm⟩
  simp only at hact haa hnt
  subst hact haa hnt
  have hno : ¬(i % 3 = 0 ∧ (j - i) % 3 = 0) := by
    rcases hframe with h | h
    · exact fun hc => h hc.1
    · exact fun hc => h hc.2
  refine ⟨⟨some (sliceList ntv i j), none, .NT, cm⟩, ?_, rfl, rfl⟩
  simp [slice, hij, hj, hno]

/-- Witness for C5 at the spec's concrete scenario: an NT-active Record with
an AA secondary View sliced `[0:4)` (length 4, not frame-aligned) succeeds
and the result has no AA View. -/
theorem slice_nt_unaligned_drops_aa_witness :
    ∃ r', slice ⟨some ("ATGTCTAAAGGTGAA").toList, some ("MSKGE").toList, .NT, none⟩ 0 4 = .ok r' ∧
      r'.aa = none ∧ r'.nt = some (sliceList ("ATGTCTAAAGGTGAA").toList 0 4) :=
  slice_nt_unaligned_drops_aa
    ⟨some ("ATGTCTAAAGGTGAA").toList, some ("MSKGE").toList, .NT, none⟩
    ("ATGTCTAAAGGTGAA").toList ("MSKGE").toList 0 4 rfl rfl rfl
    (by decide) (by decide) (by decide)

/-- C10: slicing preserves the Record's Codon Map reference: for every
AA-active Record with a bound Codon Map and every in-bounds range, the slice
still holds the same Codon Map, and a subsequent activation toward NT
(back-translation) succeeds without re-supplying the map. -/
theorem slice_preserves_codon_map (r : Record) (aav : List Char) (m : CodonMap) (i j : Nat)
    (hact : r.active = .AA) (haa : r.aa = some aav) (hm : r.codon_map = some m)
    (hij : i ≤ j) (hj : j ≤ aav.length) :
    ∃ r', slice r i j = .ok r' ∧ r'.codon_map = some m ∧
      ∃ w, activate r' .NT = .ok w ∧ w.active = .NT := by
  rcases r with ⟨nt, aa, active, cm⟩
  simp only at hact haa hm
  subst hact haa hm
  cases nt with
  | none =>
    refine ⟨⟨none, some (sliceList aav i j), .AA, some m⟩, ?_, rfl, ?_⟩
    · simp [slice, hij, hj]
    · exact ⟨⟨some (backTranslateSyms m (sliceList aav i j)), some (sliceList aav i j), .NT,
        some m⟩, by simp [activate, back_translate], rfl⟩
  | some ntv =>
    refine ⟨⟨some (sliceList ntv (3 * i) (3 * j)), some (sliceList aav i j), .AA, some m⟩, ?_, rfl, ?_⟩
    · simp [slice, hij, hj]
    · exact ⟨⟨some (sliceList ntv (3 * i) (3 * j)), some (sliceList aav i j), .NT, some m⟩,
        by simp [activate], rfl⟩

/-- Witness for C10 following the README scenario: an AA-active Record built
with a Codon Map, sliced `[0:1)`, keeps the map, and `activate(NT)` on the
slice succeeds. -/
theorem slice_preserves_codon_map_witness :
    ∃ r', slice ⟨none, some ("MSKGE").toList, .AA, some exCodonMap⟩ 0 1 = .ok r' ∧
      r'.codon_map = some exCodonMap ∧
      ∃ w, activate r' .NT = .ok w ∧ w.active = .NT :=
  slice_preserves_codon_map ⟨none, some ("MSKGE").toList, .AA, some exCodonMap⟩
    ("MSKGE").toList exCodonMap 0 1 rfl rfl rfl (by decide) (by decide)

/-- C7: for every Record already holding a View of the target domain,
`activate` swaps only the active flag (no recomputation); in particular, for
every NT View whose length is divisible by 3, `activate(AA)` followed by
`activate(NT)` returns to the original active View unchanged. -/
theorem activate_swap_and_roundtrip :
    (∀ (r : Record) (target : Domain) (v : List Char),
      viewOf r target = some v → activate r target = .ok { r with active := target }) ∧
    (∀ (v : List Char) (cm : Option CodonMap), v.length % 3 = 0 →
      ∃ r1 r2,
        activate ⟨some v, none, .NT, cm⟩ .AA = .ok r1 ∧
        activate r1 .NT = .ok r2 ∧
        r2 = ⟨some v, some (translateSyms v), .NT, cm⟩ ∧
        activeView r2 = some v) := by
  constructor
  · intro r target v h
    cases target with
    | NT =>
      have h' : r.nt = some v := h
      simp [activate, h']
    | AA =>
      have h' : r.aa = some v := h
      simp [activate, h']
  · intro v cm hlen
    refine ⟨⟨some v, some (translateSyms v), .AA, cm⟩,
      ⟨some v, some (translateSyms v), .NT, cm⟩, ?_, ?_, rfl, rfl⟩
    · simp [activate, translate, hlen]
    · simp [activate]

/-- Witness for C7: `"ATGTCTAAAGGTGAA"` (length 15) activated to AA and back
to NT returns a Record whose active View is the original NT View; and on a
Record holding both Views, `activate` only swaps the flag. -/
theorem activate_swap_and_roundtrip_witness :
    activate ⟨some ("ATGTCTAAAGGTGAA").toList, some ("MSKGE").toList, .NT, none⟩ .AA =
      .ok ⟨some ("ATGTCTAAAGGTGAA").toList, some ("MSKGE").toList, .AA, none⟩ ∧
    ∃ r1 r2,
      activate ⟨some ("ATGTCTAAAGGTGAA").toList, none, .NT, none⟩ .AA = .ok r1 ∧
      activate r1 .NT = .ok r2 ∧
      r2 = ⟨some ("ATGTCTAAAGGTGAA").toList,
            some (translateSyms ("ATGTCTAAAGGTGAA").toList), .NT, none⟩ ∧
      activeView r2 = some ("ATGTCTAAAGGTGAA").toList := by
  constructor
  · exact activate_swap_and_roundtrip.1
      ⟨some ("ATGTCTAAAGGTGAA").toList, some ("MSKGE").toList, .NT, none⟩ .AA
      ("MSKGE").toList rfl
  · exact activate_swap_and_roundtrip.2 ("ATGTCTAAAGGTGAA").toList none (by decide)

theorem option_pad_zero (o : Option (List Char)) (g : Char) :
    o.map (fun w => w ++ List.replicate 0 g) = o := by
  cases o <;> simp

/-- C8: for every Record, `pad_to` at the current length is a no-op returning
the Record unchanged; any strictly smaller target fails with
`LengthMismatchError` (padding never truncates); and any larger target
appends gap symbols to the active View until the target length is reached. -/
theorem pad_to_spec (r : Record) (v : List Char) (hv : activeView r = some v) :
    pad_to r v.length = .ok r ∧
    (∀ t, t < v.length → pad_to r t = .error .LengthMismatchError) ∧
    (∀ t, v.length ≤ t →
      ∃ r', pad_to r t = .ok r' ∧
        activeView r' = some (v ++ List.replicate (t - v.length) '-')) := by
  rcases r with ⟨nt, aa, active, cm⟩
  cases active with
  | NT =>
    have h' : nt = some v := hv
    subst h'
    refine ⟨?_, ?_, ?_⟩
    · simp [pad_to, option_pad_zero]
    · intro t ht
      simp [pad_to, ht]
    · intro t ht
      refine ⟨⟨some (v ++ List.replicate (t - v.length) '-'),
        if (t - v.length) % 3 = 0 then
          aa.map (fun w => w ++ List.replicate ((t - v.length) / 3) '-') else none,
        .NT, cm⟩, ?_, rfl⟩
      simp [pad_to, Nat.not_lt.mpr ht]
  | AA =>
    have h' : aa = some v := hv
    subst h'
    refine ⟨?_, ?_, ?_⟩
    · simp [pad_to, option_pad_zero]
    · intro t ht
      simp [pad_to, ht]
    · intro t ht
      refine ⟨⟨nt.map (fun w => w ++ List.replicate (3 * (t - v.length)) '-'),
        some (v ++ List.replicate (t - v.length) '-'), .AA, cm⟩, ?_, rfl⟩
      simp [pad_to, Nat.not_lt.mpr ht]

/-- Witness for C8 on the tutorial's Record: padding the length-15 NT View to
15 is a no-op, padding to 14 fails with `LengthMismatchError`, and padding to
18 appends three gap symbols. -/
theorem pad_to_spec_witness :
    pad_to ⟨some ("ATGTCTAAAGGTGAA").toList, none, .NT, none⟩ 15 =
      .ok ⟨some ("ATGTCTAAAGGTGAA").toList, none, .NT, none⟩ ∧
    pad_to ⟨some ("ATGTCTAAAGGTGAA").toList, none, .NT, none⟩ 14 =
      .error .LengthMismatchError ∧
    ∃ r', pad_to ⟨some ("ATGTCTAAAGGTGAA").toList, none, .NT, none⟩ 18 = .ok r' ∧
      activeView r' = some (("ATGTCTAAAGGTGAA").toList ++ List.replicate 3 '-') := by
  have h := pad_to_spec ⟨some ("ATGTCTAAAGGTGAA").toList, none, .NT, none⟩
    ("ATGTCTAAAGGTGAA").toList rfl
  exact ⟨h.1, h.2.1 14 (by decide), h.2.2 18 (by decide)⟩

/-! ### Lemmas about the numeric codec -/

theorem idxOfSym_lt_length : ∀ (l : List Char) (c : Char), c ∈ l → idxOfSym l c < l.length
  | a :: rest, c, h => by
    by_cases hac : a = c
    · simp [idxOfSym, hac]
    · have hc : c ∈ rest := by
        rcases List.mem_cons.mp h with h' | h'
        · exact absurd h'.symm hac
        · exact h'
      have ih := idxOfSym_lt_length rest c hc
      simp only [idxOfSym, hac, if_false, List.length_cons]
      omega

theorem idxOfSym_getElem? : ∀ (l : List Char) (c : Char), c ∈ l → l[idxOfSym l c]? = some c
  | a :: rest, c, h => by
    by_cases hac : a = c
    · simp [idxOfSym, hac]
    · have hc : c ∈ rest := by
        rcases List.mem_cons.mp h with h' | h'
        · exact absurd h'.symm hac
        · exact h'
      have ih := idxOfSym_getElem? rest c hc
      simp [idxOfSym, hac, ih]

theorem symbol_at_index_of (A : Alphabet) (c : Char) (h : c ∈ A.symbols) :
    symbol_at A (index_of A c) = .ok c := by
  simp [symbol_at, index_of, idxOfSym_getElem? A.symbols c h]

theorem onesCount_replicate_zero : ∀ n : Nat, onesCount (List.replicate n 0) = 0
  | 0 => rfl
  | n + 1 => by simp [List.replicate, onesCount, onesCount_replicate_zero n]

theorem onesCount_onehotRow : ∀ i n : Nat, i < n → onesCount (onehotRow i n) = 1
  | 0, n + 1, _ => by simp [onehotRow, onesCount, onesCount_replicate_zero n]
  | i + 1, n + 1, h => by
    have ih := onesCount_onehotRow i n (Nat.lt_of_succ_lt_succ h)
    simp [onehotRow, onesCount, ih]

theorem onesIdx_onehotRow : ∀ i n : Nat, i < n → onesIdx (onehotRow i n) = i
  | 0, n + 1, _ => by simp [onehotRow, onesIdx]
  | i + 1, n + 1, h => by
    have ih := onesIdx_onehotRow i n (Nat.lt_of_succ_lt_succ h)
    simp [onehotRow, onesIdx, ih]

theorem decodeRow_onehotRow (A : Alphabet) (c : Char) (h : c ∈ A.symbols) :
    decodeRow A (onehotRow (index_of A c) A.symbols.length) = .ok c := by
  have hlt : index_of A c < A.symbols.length := idxOfSym_lt_length A.symbols c h
  simp [decodeRow, onesCount_onehotRow _ _ hlt, onesIdx_onehotRow _ _ hlt,
    symbol_at_index_of A c h]

theorem decode_index_encode_index (A : Alphabet) :
    ∀ v : List Char, (∀ c ∈ v, c ∈ A.symbols) →
      decode_index A (encode_index A v) = .ok v
  | [], _ => rfl
  | c :: rest, h => by
    have hc := symbol_at_index_of A c (h c (List.mem_cons_self c rest))
    have ih := decode_index_encode_index A rest (fun x hx => h x (List.mem_cons_of_mem c hx))
    simp only [encode_index, List.map_cons] at *
    simp [decode_index, hc, ih, encode_index]

theorem decode_onehot_encode_onehot (A : Alphabet) :
    ∀ v : List Char, (∀ c ∈ v, c ∈ A.symbols) →
      decode_onehot A (encode_onehot A v) = .ok v
  | [], _ => rfl
  | c :: rest, h => by
    have hc := decodeRow_onehotRow A c (h c (List.mem_cons_self c rest))
    have ih := decode_onehot_encode_onehot A rest (fun x hx => h x (List.mem_cons_of_mem c hx))
    simp only [encode_onehot, List.map_cons] at *
    simp [decode_onehot, hc, ih, encode_onehot]

/-- C6: for every View whose symbols all belong to its Alphabet, decoding the
encoding is the identity, both for the one-hot codec and for the index
codec. -/
theorem codec_roundtrip (A : Alphabet) (v : List Char)
    (hv : ∀ c ∈ v, c ∈ A.symbols) :
    decode_onehot A (encode_onehot A v) = .ok v ∧
    decode_index A (encode_index A v) = .ok v :=
  ⟨decode_onehot_encode_onehot A v hv, decode_index_encode_index A v hv⟩

/-- Witness for C6 on the tutorial's data: the View `"ACGTTT"` over the
default NT alphabet `-ACGTUN` round-trips through both codecs. -/
theorem codec_roundtrip_witness :
    decode_onehot ⟨("-ACGTUN").toList, '-', 'N'⟩
        (encode_onehot ⟨("-ACGTUN").toList, '-', 'N'⟩ ("ACGTTT").toList) =
      .ok ("ACGTTT").toList ∧
    decode_index ⟨("-ACGTUN").toList, '-', 'N'⟩
        (encode_index ⟨("-ACGTUN").toList, '-', 'N'⟩ ("ACGTTT").toList) =
      .ok ("ACGTTT").toList :=
  codec_roundtrip ⟨("-ACGTUN").toList, '-', 'N'⟩ ("ACGTTT").toList (by decide)

end SeqLike
